import Mathlib

/-!
Shallow embedding of `dev/triton_groupGEMM/clean/mg/forward_group_gemm.py`
(grouped GEMM forward kernels and their host wrapper).

Modelling conventions:
* Tensor elements are modelled as `Int` (exact arithmetic); the claims under
  study are structural (indexing, scheduling, masking, control flow), not
  about floating-point rounding, so casts between storage precisions
  (`bf16`, `fp8`, `float32`) are identities on the carried values.  Dtypes
  themselves are tracked as tags where a claim mentions them.
* The output buffer is a total function `Nat -> Nat -> Option Int`; it starts
  as `fun _ _ => none` (modelling `torch.empty`: uninitialized contents) and
  a store writes `some v`.
* `tl.load(ptr, mask=m)` with no `other` operand leaves masked-out lanes
  unspecified (Triton only guarantees the substituted value when `other` is
  given; the kernels here pass `other=0.0` for the scale loads but not for
  the data loads).  The unspecified lanes are modelled by an explicit fill
  function (`Fills`) the kernel model is parameterised over; a property of
  the program must hold for every fill.
* `tl._experimental_descriptor_load` (TMA bulk load) reads the descriptor's
  rectangle clipped to the descriptor's global extent, with out-of-extent
  elements read as zero; the host fills the `x` descriptor with global size
  `[M_total, K]` and the `w` descriptor with `[N, K]`.
* The TMA store goes through a per-group descriptor of global size
  `[m_size, n_size]` based at `c_ptr + M_start_offset * N`; elements of the
  block falling outside that extent are clipped (not written).
* The launch grid is `min(NUM_SMS, 4)` workers (host line
  `grid_size = (min(NUM_SMS, 4),)`); workers write disjoint cells, so the
  parallel execution is modelled as a sequential fold over worker ids.
-/

namespace MG

/-- `tl.cdiv`: ceiling division. -/
def cdiv (a b : Nat) : Nat := (a + b - 1) / b

/-- Python `range(start, stop, step)` for a positive step, as a list. -/
def stridedRange (start stop step : Nat) : List Nat :=
  if start < stop then List.range' start (cdiv (stop - start) step) step else []

/-- Output buffer: `none` models uninitialized (`torch.empty`) contents. -/
def Out : Type := Nat → Nat → Option Int

/-- The all-uninitialized output buffer. -/
def emptyOut : Out := fun _ _ => none

/-- Compile-time kernel configuration: problem sizes `N`, `K` and the tile
sizes `BLOCK_SIZE_M/N/K` (all `tl.constexpr` parameters of the kernels). -/
structure GemmCfg where
  N : Nat
  K : Nat
  BM : Nat
  BN : Nat
  BK : Nat

/-- Device memory visible to a kernel invocation: the flat input matrix
(`M_total` rows, addressed through the `x` TMA descriptor or raw pointer)
and the weight matrix (addressed through the `w` descriptor or pointer). -/
structure Inputs where
  MTotal : Nat
  x : Nat → Nat → Int
  w : Nat → Nat → Int

/-- Unspecified values returned by the masked `tl.load`s of the input and
weight blocks (no `other` operand is passed at those two call sites, in both
kernels).  Indexed by the (row, column) the lane would have addressed. -/
structure Fills where
  fillA : Nat → Nat → Int
  fillB : Nat → Nat → Int

/-- Element `(i, k)` of the input block loaded for a tile.
TMA path: descriptor load at `[M_start_offset + tile_m_idx*BM, k_offset]`,
clipped to the descriptor's global extent `[MTotal, K]` (out-of-extent reads
zero).  Manual path: `tl.load(a_ptrs, mask=offs_am[:, None] < m_size)` with
`a_ptrs = a_desc_ptr + (M_start_offset + offs_am)*K + offs_k`; masked-out
lanes are unspecified. -/
def loadA (cfg : GemmCfg) (tmaLoad : Bool) (inp : Inputs) (fills : Fills)
    (Mstart msize tm i k : Nat) : Int :=
  if tmaLoad then
    if Mstart + tm * cfg.BM + i < inp.MTotal ∧ k < cfg.K then
      inp.x (Mstart + tm * cfg.BM + i) k
    else 0
  else
    if tm * cfg.BM + i < msize then
      inp.x (Mstart + tm * cfg.BM + i) k
    else
      fills.fillA (Mstart + tm * cfg.BM + i) k

/-- Element `(j, k)` of the weight block loaded for a tile.
TMA path: descriptor load at `[tile_n_idx*BN, k_offset]`, clipped to the
descriptor's global extent `[N, K]`.  Manual path:
`tl.load(b_ptrs, mask=offs_bn[:, None] < n_size)` with
`b_ptrs = b_desc_ptr + offs_bn*K + offs_k`.  Note: in both paths the row
index is `tile_n_idx * BLOCK_SIZE_N + j` with no group offset — each group
reads the same weight rows. -/
def loadB (cfg : GemmCfg) (tmaLoad : Bool) (inp : Inputs) (fills : Fills)
    (tn j k : Nat) : Int :=
  if tmaLoad then
    if tn * cfg.BN + j < cfg.N ∧ k < cfg.K then
      inp.w (tn * cfg.BN + j) k
    else 0
  else
    if tn * cfg.BN + j < cfg.N then
      inp.w (tn * cfg.BN + j) k
    else
      fills.fillB (tn * cfg.BN + j) k

/-- The accumulator entry `(i, j)` of one tile: the loop
`for k_offset in range(0, K, BLOCK_SIZE_K): accumulator += tl.dot(a, b.T)`
starting from `tl.zeros`, where `tl.dot(a, b.T)[i, j]` sums over the
`BLOCK_SIZE_K` lanes of the current block. -/
def accum (cfg : GemmCfg) (tmaLoad : Bool) (inp : Inputs) (fills : Fills)
    (Mstart msize tm tn i j : Nat) : Int :=
  (stridedRange 0 cfg.K cfg.BK).foldl
    (fun s kOff =>
      s + ∑ kk in Finset.range cfg.BK,
        loadA cfg tmaLoad inp fills Mstart msize tm i (kOff + kk) *
        loadB cfg tmaLoad inp fills tn j (kOff + kk))
    0

/-- Manual store path (`tl.store` with
`mask = offs_am[:, None] < m_size and offs_bn[None, :] < n_size`, address
`c_ptr + (M_start_offset + offs_am)*N + offs_bn`): cell `(r, c)` receives the
tile value when `r` lies in the tile's row window and is row-in-bounds and
`c` lies in the tile's column window and is column-in-bounds. -/
def storeManual (BM BN Nd Mstart msize tm tn : Nat) (val : Nat → Nat → Int)
    (y : Out) : Out :=
  fun r c =>
    if Mstart + tm * BM ≤ r ∧ r < Mstart + tm * BM + BM ∧ r < Mstart + msize ∧
       tn * BN ≤ c ∧ c < tn * BN + BN ∧ c < Nd then
      some (val (r - (Mstart + tm * BM)) (c - tn * BN))
    else y r c

/-- TMA store path (`tl._experimental_descriptor_store` through the
per-group descriptor with base `c_ptr + M_start_offset * N` and global size
`[m_size, n_size]`): the `BM x BN` block at `[tile_m_idx*BM, tile_n_idx*BN]`
is written clipped to the descriptor extent. -/
def storeTMA (BM BN Nd Mstart msize tm tn : Nat) (val : Nat → Nat → Int)
    (y : Out) : Out :=
  fun r c =>
    if Mstart + tm * BM ≤ r ∧ r < Mstart + min (tm * BM + BM) msize ∧
       tn * BN ≤ c ∧ c < min (tn * BN + BN) Nd then
      some (val (r - (Mstart + tm * BM)) (c - tn * BN))
    else y r c

/-- Number of tiles of a group of `m` rows:
`tl.cdiv(m_size, BLOCK_SIZE_M) * tl.cdiv(n_size, BLOCK_SIZE_N)` with
`n_size = N`. -/
def numTiles (cfg : GemmCfg) (m : Nat) : Nat :=
  cdiv m cfg.BM * cdiv cfg.N cfg.BN

/-- One scheduled tile: the owning group's start row `off`, its row count
`m`, and the flat in-group tile index `t`. -/
structure Job where
  off : Nat
  m : Nat
  t : Nat
  deriving DecidableEq

/-- The running group scan both kernels perform
(`M_start_offset = M_end_offset; m_size = tl.load(m_sizes + g);
M_end_offset = M_start_offset + m_size`): the list of
`(M_start_offset, m_size)` pairs in group order. -/
def groupOffsets : List Nat → Nat → List (Nat × Nat)
  | [], _ => []
  | m :: ms, off => (off, m) :: groupOffsets ms (off + m)

/-- Tiles processed by worker `pid` of the plain kernel: for each non-empty
group, the grid-strided loop `for tile_idx in range(pid, num_tiles, num_pid)`
(`num_pid = tl.num_programs(0)`). -/
def plainJobs (cfg : GemmCfg) (pid nPid : Nat) (ms : List Nat) (off : Nat) :
    List Job :=
  (groupOffsets ms off).flatMap fun om =>
    if 0 < om.2 then
      (stridedRange pid (numTiles cfg om.2) nPid).map fun t => ⟨om.1, om.2, t⟩
    else []

/-- The fp8 kernel's per-group while loop
(`while tidx >= iterated_tiles and tidx < iterated_tiles + num_tiles:
  gidx = tidx - iterated_tiles; ...; tidx += NUM_SMS`):
returns the in-group tile indices processed and the final `tidx`.  The
first argument is structural fuel; `nT` units always suffice when the
stride `S` is positive, because each iteration moves `tidx` up by `S` and
the loop condition bounds it by `iterated + nT`. -/
def whileTiles (S : Nat) : Nat → Nat → Nat → Nat → List Nat × Nat
  | 0, tidx, _, _ => ([], tidx)
  | fuel + 1, tidx, iter, nT =>
    if iter ≤ tidx ∧ tidx < iter + nT then
      let p := whileTiles S fuel (tidx + S) iter nT
      ((tidx - iter) :: p.1, p.2)
    else ([], tidx)

/-- The fp8 kernel's group sweep for one worker, over the scanned
`(M_start_offset, m_size)` pairs, threading the worker's cursor `tidx` and
the cumulative tile counter `iterated_tiles` (which, like `num_tiles`, is
only advanced inside `if m_size > 0`). -/
def fp8Go (cfg : GemmCfg) (S : Nat) : List (Nat × Nat) → Nat → Nat → List Job
  | [], _, _ => []
  | om :: rest, tidx, iter =>
    if 0 < om.2 then
      let nT := numTiles cfg om.2
      let p := whileTiles S nT tidx iter nT
      (p.1.map fun gi => ⟨om.1, om.2, gi⟩) ++ fp8Go cfg S rest p.2 (iter + nT)
    else fp8Go cfg S rest tidx iter

/-- Tiles processed by worker `tidx0` of the fp8 kernel. -/
def fp8Jobs (cfg : GemmCfg) (S : Nat) (ms : List Nat) (off tidx iter : Nat) :
    List Job :=
  fp8Go cfg S (groupOffsets ms off) tidx iter

/-- One tile of the plain kernel applied to the output buffer:
`tile_m_idx = tile_idx % num_m_tiles`, `tile_n_idx = tile_idx // num_m_tiles`,
accumulate, cast to the output dtype (identity on carried values), store. -/
def applyJob (cfg : GemmCfg) (tmaLoad tmaStore : Bool) (inp : Inputs)
    (fills : Fills) (j : Job) (y : Out) : Out :=
  let nm := cdiv j.m cfg.BM
  let tm := j.t % nm
  let tn := j.t / nm
  let val := fun i jj => accum cfg tmaLoad inp fills j.off j.m tm tn i jj
  if tmaStore then storeTMA cfg.BM cfg.BN cfg.N j.off j.m tm tn val y
  else storeManual cfg.BM cfg.BN cfg.N j.off j.m tm tn val y

/-- One tile of the fp8 kernel: after accumulation the row scales
(`tl.load(a_scale_ptr + (M_start_offset + offs_am), mask=offs_am < m_size,
other=0.0)`) and column scales
(`tl.load(b_scale_ptr + offs_bn, mask=offs_bn < n_size, other=0.0)` — again
with no group offset) are multiplied in as an outer product before the
store. -/
def applyJobFp8 (cfg : GemmCfg) (tmaLoad tmaStore : Bool) (inp : Inputs)
    (fills : Fills) (xs ws : Nat → Int) (j : Job) (y : Out) : Out :=
  let nm := cdiv j.m cfg.BM
  let tm := j.t % nm
  let tn := j.t / nm
  let aSc := fun i => if tm * cfg.BM + i < j.m then xs (j.off + tm * cfg.BM + i) else 0
  let bSc := fun jj => if tn * cfg.BN + jj < cfg.N then ws (tn * cfg.BN + jj) else 0
  let val := fun i jj =>
    accum cfg tmaLoad inp fills j.off j.m tm tn i jj * aSc i * bSc jj
  if tmaStore then storeTMA cfg.BM cfg.BN cfg.N j.off j.m tm tn val y
  else storeManual cfg.BM cfg.BN cfg.N j.off j.m tm tn val y

/-- Sequentially apply a worker's tile stores (tiles of distinct workers are
disjoint, so the fold order is immaterial). -/
def applyJobs (cfg : GemmCfg) (tmaLoad tmaStore : Bool) (inp : Inputs)
    (fills : Fills) (js : List Job) (y : Out) : Out :=
  js.foldl (fun y j => applyJob cfg tmaLoad tmaStore inp fills j y) y

/-- Sequentially apply a worker's fp8 tile stores. -/
def applyJobsFp8 (cfg : GemmCfg) (tmaLoad tmaStore : Bool) (inp : Inputs)
    (fills : Fills) (xs ws : Nat → Int) (js : List Job) (y : Out) : Out :=
  js.foldl (fun y j => applyJobFp8 cfg tmaLoad tmaStore inp fills xs ws j y) y

/-- `_kernel_grouped_gemm`, run over the whole launch grid of `grid`
workers (`pid = tl.program_id(0)`, `num_pid = tl.num_programs(0) = grid`),
starting from the uninitialized output buffer. -/
def kernel_grouped_gemm (cfg : GemmCfg) (tmaLoad tmaStore : Bool)
    (inp : Inputs) (fills : Fills) (ms : List Nat) (grid : Nat) : Out :=
  (List.range grid).foldl
    (fun y pid =>
      applyJobs cfg tmaLoad tmaStore inp fills (plainJobs cfg pid grid ms 0) y)
    emptyOut

/-- `_kernel_grouped_gemm_fp8_rowwise`, run over the whole launch grid of
`grid` workers; each worker's cursor starts at its program id and advances
by the constexpr `NUM_SMS` (which the host passes independently of the
launched grid size). -/
def kernel_grouped_gemm_fp8_rowwise (cfg : GemmCfg) (tmaLoad tmaStore : Bool)
    (inp : Inputs) (fills : Fills) (xs ws : Nat → Int) (ms : List Nat)
    (grid S : Nat) : Out :=
  (List.range grid).foldl
    (fun y t0 =>
      applyJobsFp8 cfg tmaLoad tmaStore inp fills xs ws
        (fp8Jobs cfg S ms 0 t0 0) y)
    emptyOut

/-- Tensor dtypes that appear at the host boundary. -/
inductive DType
  | bf16
  | f16
  | f32
  | fp8e4
  | i32
  | u8
  deriving DecidableEq

/-- A host-side input tensor: shape, dtype tag, element values and the
`is_contiguous()` flag. -/
structure HTensor where
  rows : Nat
  cols : Nat
  dty : DType
  v : Nat → Nat → Int
  contig : Bool

/-- The host-side output tensor returned by `_grouped_gemm`. -/
structure OutTensor where
  rows : Nat
  cols : Nat
  dty : DType
  v : Out

/-- Which compute kernel the host dispatched. -/
inductive KernelKind
  | plain
  | fp8
  deriving DecidableEq

/-- Result of a completed `_grouped_gemm` call: the output tensor, which
kernel was launched, and whether the `except` branch of the TMA-descriptor
setup printed an error message. -/
structure RunOut where
  y : OutTensor
  kernel : KernelKind
  tmaErrorPrinted : Bool

/-- Terminal failures of `_grouped_gemm`: the `NotImplementedError`, the
`assert` statements in source order, and the kernels' compile-time
`tl.static_assert(K % BLOCK_SIZE_K == 0)` raised at launch. -/
inductive HostErr
  | noTMADesc
  | xNotContig
  | wNotContig
  | msNotContig
  | kMismatch
  | sumMismatch
  | xscaleNotContig
  | wscaleNotContig
  | xscaleNotNone
  | wscaleNotNone
  | staticAssertK
  deriving DecidableEq

/-- Arguments of `_grouped_gemm`, together with the ambient device state it
reads: the SM count, whether TMA descriptors are supported
(`utils.HAS_TMA_DESC`), whether `fill_2d_tma_descriptor` raises, and the
unspecified masked-load lane contents. -/
structure HostArgs where
  x : HTensor
  w : HTensor
  msizes : List Nat
  msContig : Bool
  xscale : Option (Nat → Int)
  wscale : Option (Nat → Int)
  xscaleContig : Bool
  wscaleContig : Bool
  NUM_SMS : Nat
  hasTMA : Bool
  tmaFillFails : Bool
  fills : Fills

/-- `_grouped_gemm`: validation, output allocation, TMA setup (with its
`try/except` that only prints), fixed grid `min(NUM_SMS, 4)`, fixed block
sizes 64/64/32, and kernel dispatch on the presence of the scale vectors.
`M_BUCKET` and the workspace allocation have no observable effect on the
result and are omitted. -/
def grouped_gemm (a : HostArgs) : Except HostErr RunOut :=
  if a.hasTMA then
    if a.x.contig then
      if a.w.contig then
        if a.msContig then
          if a.w.cols = a.x.cols then
            if a.msizes.sum = a.x.rows then
              let MTotal := a.x.rows
              let Kd := a.x.cols
              let Nd := a.w.rows
              let cfg : GemmCfg := ⟨Nd, Kd, 64, 64, 32⟩
              let inp : Inputs := ⟨MTotal, a.x.v, a.w.v⟩
              let grid := min a.NUM_SMS 4
              match a.xscale, a.wscale with
              | some xs, some ws =>
                if a.xscaleContig then
                  if a.wscaleContig then
                    if Kd % 32 = 0 then
                      Except.ok
                        ⟨⟨MTotal, Nd, DType.bf16,
                          kernel_grouped_gemm_fp8_rowwise cfg true true inp
                            a.fills xs ws a.msizes grid a.NUM_SMS⟩,
                         KernelKind.fp8, a.tmaFillFails⟩
                    else Except.error HostErr.staticAssertK
                  else Except.error HostErr.wscaleNotContig
                else Except.error HostErr.xscaleNotContig
              | xsc, wsc =>
                if xsc.isSome then Except.error HostErr.xscaleNotNone
                else if wsc.isSome then Except.error HostErr.wscaleNotNone
                else if Kd % 32 = 0 then
                  Except.ok
                    ⟨⟨MTotal, Nd, DType.bf16,
                      kernel_grouped_gemm cfg true true inp a.fills a.msizes
                        grid⟩,
                     KernelKind.plain, a.tmaFillFails⟩
                else Except.error HostErr.staticAssertK
            else Except.error HostErr.sumMismatch
          else Except.error HostErr.kMismatch
        else Except.error HostErr.msNotContig
      else Except.error HostErr.wNotContig
    else Except.error HostErr.xNotContig
  else Except.error HostErr.noTMADesc

/-- Public plain entry point `group_gemm_forward` (scales default to
`None`). -/
def group_gemm_forward (a : HostArgs) : Except HostErr RunOut :=
  grouped_gemm { a with xscale := none, wscale := none }

/-- Public quantized entry point `group_gemm_fp8_rowwise` (both scales
provided). -/
def group_gemm_fp8_rowwise (a : HostArgs) (xs ws : Nat → Int) :
    Except HostErr RunOut :=
  grouped_gemm { a with xscale := some xs, wscale := some ws }

/-- Projection: the output cell `(r, c)` of a completed call. -/
def resultVal (e : Except HostErr RunOut) (r c : Nat) : Option Int :=
  match e with
  | Except.ok o => o.y.v r c
  | Except.error _ => none

/-- Projection: which kernel a completed call dispatched. -/
def okKernel (e : Except HostErr RunOut) : Option KernelKind :=
  e.toOption.map fun o => o.kernel

/-- Projection: whether a completed call printed the TMA setup error. -/
def okPrinted (e : Except HostErr RunOut) : Option Bool :=
  e.toOption.map fun o => o.tmaErrorPrinted

/-- Projection: output row count of a completed call. -/
def okRows (e : Except HostErr RunOut) : Option Nat :=
  e.toOption.map fun o => o.y.rows

/-- Projection: output column count of a completed call. -/
def okCols (e : Except HostErr RunOut) : Option Nat :=
  e.toOption.map fun o => o.y.cols

/-- Projection: output dtype of a completed call. -/
def okDty (e : Except HostErr RunOut) : Option DType :=
  e.toOption.map fun o => o.y.dty

/-- The store footprint of a tile job: exactly the cells the manual store
mask (and equivalently the TMA store clip) covers. -/
abbrev jobCovers (cfg : GemmCfg) (j : Job) (r c : Nat) : Prop :=
  j.off + j.t % cdiv j.m cfg.BM * cfg.BM ≤ r ∧
  r < j.off + j.t % cdiv j.m cfg.BM * cfg.BM + cfg.BM ∧
  r < j.off + j.m ∧
  j.t / cdiv j.m cfg.BM * cfg.BN ≤ c ∧
  c < j.t / cdiv j.m cfg.BM * cfg.BN + cfg.BN ∧
  c < cfg.N

/-- Whether any tile launched by the plain kernel covers cell `(r, c)`. -/
def coveredPlain (cfg : GemmCfg) (ms : List Nat) (grid r c : Nat) : Bool :=
  (List.range grid).any fun pid =>
    (plainJobs cfg pid grid ms 0).any fun j => decide (jobCovers cfg j r c)

/-- Whether any tile launched by the fp8 kernel covers cell `(r, c)`. -/
def coveredFp8 (cfg : GemmCfg) (ms : List Nat) (grid S r c : Nat) : Bool :=
  (List.range grid).any fun t0 =>
    (fp8Jobs cfg S ms 0 t0 0).any fun j => decide (jobCovers cfg j r c)

/-- Whether any tile launched by the call `grouped_gemm a` covers `(r, c)`. -/
def hostCovered (a : HostArgs) (r c : Nat) : Bool :=
  match a.xscale, a.wscale with
  | some _, some _ =>
    coveredFp8 ⟨a.w.rows, a.x.cols, 64, 64, 32⟩ a.msizes (min a.NUM_SMS 4)
      a.NUM_SMS r c
  | _, _ =>
    coveredPlain ⟨a.w.rows, a.x.cols, 64, 64, 32⟩ a.msizes (min a.NUM_SMS 4) r c

end MG

namespace MG

/-- Zero fill for the unspecified masked-load lanes. -/
def fills0 : Fills := ⟨fun _ _ => 0, fun _ _ => 0⟩

/-- A fill assigning 1 to every unspecified masked-load lane. -/
def fills1 : Fills := ⟨fun _ _ => 1, fun _ _ => 1⟩

/-- A fill assigning 3 (input) and 7 (weight) to unspecified lanes. -/
def fillsT : Fills := ⟨fun _ _ => 3, fun _ _ => 7⟩

/-- The all-ones scale vector. -/
def scOne : Nat → Int := fun _ => 1

/-- Input for the C1 scenario: two groups of one row each, all entries 1. -/
def xC1 : HTensor := ⟨2, 32, DType.bf16, fun _ _ => 1, true⟩

/-- Weights for the C1 scenario, as the claim lays them out: `G·N = 2·1`
rows of `K = 32`; group 0's weight row is all zeros, group 1's all ones. -/
def wC1 : HTensor := ⟨2, 32, DType.bf16, fun r _ => if r = 0 then 0 else 1, true⟩

/-- The C1 invocation (plain kernel, `NUM_SMS = 4`). -/
def aC1 : HostArgs :=
  ⟨xC1, wC1, [1, 1], true, none, none, true, true, 4, true, false, fills0⟩

/-- Input for the C2 scenario: one group of 320 rows (5 row tiles of 64). -/
def xC2 : HTensor := ⟨320, 32, DType.fp8e4, fun _ _ => 1, true⟩

/-- Weights for the C2 scenario: one output column. -/
def wC2 : HTensor := ⟨1, 32, DType.fp8e4, fun _ _ => 1, true⟩

/-- The C2 invocation: quantized path with `NUM_SMS = 8`, so the host
launches `min(8, 4) = 4` workers while the kernel's cursor strides by 8. -/
def aC2 : HostArgs :=
  ⟨xC2, wC2, [320], true, some scOne, some scOne, true, true, 8, true, false,
   fills0⟩

/-- Input for the C3 scenario: two groups of one row each, all entries 1. -/
def xC3 : HTensor := ⟨2, 32, DType.fp8e4, fun _ _ => 1, true⟩

/-- Weights for the C3 scenario: all entries 1 (`G·N = 2·1` rows). -/
def wC3 : HTensor := ⟨2, 32, DType.fp8e4, fun _ _ => 1, true⟩

/-- Per-row input scales for the C3 scenario: all 1. -/
def xScaleC3 : Nat → Int := scOne

/-- Per-weight-row scales for the C3 scenario: 5 for weight row 0, 7 for
the rest. -/
def wScaleC3 : Nat → Int := fun c => if c = 0 then 5 else 7

/-- The C3 invocation (quantized kernel, `NUM_SMS = 4`). -/
def aC3 : HostArgs :=
  ⟨xC3, wC3, [1, 1], true, some xScaleC3, some wScaleC3, true, true, 4, true,
   false, fills0⟩

/-- A minimal valid single-group input tensor. -/
def xSmall : HTensor := ⟨1, 32, DType.bf16, fun _ _ => 1, true⟩

/-- A minimal valid weight tensor. -/
def wSmall : HTensor := ⟨1, 32, DType.bf16, fun _ _ => 1, true⟩

/-- A valid plain invocation during which `fill_2d_tma_descriptor` raises. -/
def aC5 : HostArgs :=
  ⟨xSmall, wSmall, [1], true, none, none, true, true, 4, true, true, fills0⟩

/-- An invocation providing only the input scale vector. -/
def aC9a : HostArgs :=
  ⟨xSmall, wSmall, [1], true, some scOne, none, true, true, 4, true, false,
   fills0⟩

/-- An invocation providing both scale vectors. -/
def aC9b : HostArgs :=
  ⟨xSmall, wSmall, [1], true, some scOne, some scOne, true, true, 4, true,
   false, fills0⟩

/-- A valid plain invocation with 8-bit floating-point inputs. -/
def aC10 : HostArgs :=
  ⟨⟨1, 32, DType.fp8e4, fun _ _ => 1, true⟩,
   ⟨1, 32, DType.fp8e4, fun _ _ => 1, true⟩,
   [1], true, none, none, true, true, 1, true, false, fills0⟩

/-- A tiny kernel configuration for the C6 counterexample: `BM = 2`, so a
group of one row has a masked second lane. -/
def cfg6 : GemmCfg := ⟨1, 1, 2, 1, 1⟩

/-- Memory for the C6 counterexample. -/
def inp6 : Inputs := ⟨1, fun _ _ => 9, fun _ _ => 9⟩

/-- A one-element kernel configuration for witnesses. -/
def cfgT : GemmCfg := ⟨1, 1, 1, 1, 1⟩

/-- One-element memory for witnesses. -/
def inpT : Inputs := ⟨1, fun _ _ => 2, fun _ _ => 5⟩

/-- A tile-value function distinguishing every tile cell. -/
def valW (i j : Nat) : Int := (100 + 10 * i + j : Nat)

end MG

namespace MG

theorem groupOffsets_mem {ms : List Nat} {off : Nat} {om : Nat × Nat}
    (h : om ∈ groupOffsets ms off) : om.1 + om.2 ≤ off + ms.sum := by
  induction ms generalizing off with
  | nil => simp [groupOffsets] at h
  | cons m rest ih =>
    simp only [groupOffsets, List.mem_cons] at h
    rcases h with h | h
    · subst h; simp only [List.sum_cons]; omega
    · have := ih h; simp [List.sum_cons]; omega

theorem groupOffsets_getD {ms : List Nat} {g : Nat} (off : Nat)
    (hg : g < ms.length) :
    (groupOffsets ms off).getD g (0, 0) =
      (off + (ms.take g).sum, ms.getD g 0) := by
  induction ms generalizing g off with
  | nil => simp at hg
  | cons m rest ih =>
    cases g with
    | zero => simp [groupOffsets]
    | succ g' =>
      simp only [groupOffsets, List.getD_cons_succ, List.take_succ_cons,
        List.sum_cons]
      rw [ih (off + m) (by simpa using hg)]
      congr 1
      omega

theorem stridedRange_mem {s e st t : Nat} (h : t ∈ stridedRange s e st) :
    ∃ i, i < cdiv (e - s) st ∧ t = s + st * i := by
  unfold stridedRange at h
  by_cases hlt : s < e
  · rw [if_pos hlt] at h
    exact List.mem_range'.mp h
  · rw [if_neg hlt] at h
    simp at h

theorem cdiv_mul_self {b q : Nat} (hb : 0 < b) : cdiv (b * q) b = q := by
  unfold cdiv
  have h1 : b * q + b - 1 = (b - 1) + q * b := by
    rw [Nat.mul_comm q b, Nat.add_sub_assoc hb, Nat.add_comm]
  rw [h1, Nat.add_mul_div_right _ _ hb, Nat.div_eq_of_lt (by omega), Nat.zero_add]

theorem kblock_le {K BK kOff : Nat} (hK : K % BK = 0)
    (h : kOff ∈ stridedRange 0 K BK) : kOff + BK ≤ K := by
  obtain ⟨i, hi, ht⟩ := stridedRange_mem h
  rcases Nat.eq_zero_or_pos BK with hBK | hBK
  · subst hBK
    simp [cdiv] at hi
  · obtain ⟨q, hq⟩ := Nat.dvd_of_mod_eq_zero hK
    subst hq
    rw [Nat.sub_zero, cdiv_mul_self hBK] at hi
    subst ht
    have : BK * i + BK = BK * (i + 1) := by ring
    rw [Nat.zero_add, this]
    exact Nat.mul_le_mul_left BK hi

theorem loadA_inb {cfg : GemmCfg} {inp : Inputs} {Mstart msize tm i k : Nat}
    (l : Bool) (f : Fills)
    (hrow : tm * cfg.BM + i < msize) (hM : Mstart + msize ≤ inp.MTotal)
    (hk : k < cfg.K) :
    loadA cfg l inp f Mstart msize tm i k = inp.x (Mstart + tm * cfg.BM + i) k := by
  cases l with
  | false => simp only [loadA, Bool.false_eq_true, if_false, if_pos hrow]
  | true =>
    simp only [loadA, if_true]
    rw [if_pos ⟨by omega, hk⟩]

theorem loadB_inb {cfg : GemmCfg} {inp : Inputs} {tn j k : Nat}
    (l : Bool) (f : Fills)
    (hcol : tn * cfg.BN + j < cfg.N) (hk : k < cfg.K) :
    loadB cfg l inp f tn j k = inp.w (tn * cfg.BN + j) k := by
  cases l with
  | false => simp only [loadB, Bool.false_eq_true, if_false, if_pos hcol]
  | true =>
    simp only [loadB, if_true]
    rw [if_pos ⟨hcol, hk⟩]

theorem accum_ext {cfg : GemmCfg} {inp : Inputs}
    (l1 l2 : Bool) (f1 f2 : Fills) {Mstart msize tm tn i j : Nat}
    (hM : Mstart + msize ≤ inp.MTotal) (hK : cfg.K % cfg.BK = 0)
    (hi : tm * cfg.BM + i < msize) (hj : tn * cfg.BN + j < cfg.N) :
    accum cfg l1 inp f1 Mstart msize tm tn i j =
      accum cfg l2 inp f2 Mstart msize tm tn i j := by
  unfold accum
  apply List.foldl_ext
  intro s kOff hmem
  congr 1
  apply Finset.sum_congr rfl
  intro kk hkk
  have hkle := kblock_le hK hmem
  have hklt : kOff + kk < cfg.K := by
    have := Finset.mem_range.mp hkk
    omega
  rw [loadA_inb l1 f1 hi hM hklt, loadA_inb l2 f2 hi hM hklt,
    loadB_inb l1 f1 hj hklt, loadB_inb l2 f2 hj hklt]

theorem storeTMA_eq_storeManual (BM BN Nd Mstart msize tm tn : Nat)
    (val : Nat → Nat → Int) (y : Out) :
    storeTMA BM BN Nd Mstart msize tm tn val y =
      storeManual BM BN Nd Mstart msize tm tn val y := by
  funext r c
  unfold storeTMA storeManual
  apply if_congr _ rfl rfl
  omega

end MG

namespace MG

theorem applyJob_eq_storeManual (cfg : GemmCfg) (l s : Bool) (inp : Inputs)
    (f : Fills) (j : Job) (y : Out) :
    applyJob cfg l s inp f j y =
      storeManual cfg.BM cfg.BN cfg.N j.off j.m (j.t % cdiv j.m cfg.BM)
        (j.t / cdiv j.m cfg.BM)
        (fun i jj => accum cfg l inp f j.off j.m (j.t % cdiv j.m cfg.BM)
          (j.t / cdiv j.m cfg.BM) i jj) y := by
  cases s with
  | false => rfl
  | true =>
    unfold applyJob
    rw [if_pos rfl, storeTMA_eq_storeManual]

theorem applyJobFp8_eq_storeManual (cfg : GemmCfg) (l s : Bool) (inp : Inputs)
    (f : Fills) (xs ws : Nat → Int) (j : Job) (y : Out) :
    applyJobFp8 cfg l s inp f xs ws j y =
      storeManual cfg.BM cfg.BN cfg.N j.off j.m (j.t % cdiv j.m cfg.BM)
        (j.t / cdiv j.m cfg.BM)
        (fun i jj =>
          accum cfg l inp f j.off j.m (j.t % cdiv j.m cfg.BM)
            (j.t / cdiv j.m cfg.BM) i jj *
          (if j.t % cdiv j.m cfg.BM * cfg.BM + i < j.m then
            xs (j.off + j.t % cdiv j.m cfg.BM * cfg.BM + i) else 0) *
          (if j.t / cdiv j.m cfg.BM * cfg.BN + jj < cfg.N then
            ws (j.t / cdiv j.m cfg.BM * cfg.BN + jj) else 0)) y := by
  cases s with
  | false => rfl
  | true =>
    unfold applyJobFp8
    rw [if_pos rfl, storeTMA_eq_storeManual]

theorem applyJob_ext (cfg : GemmCfg) (l1 s1 l2 s2 : Bool) (inp : Inputs)
    (f1 f2 : Fills) (j : Job) (y : Out)
    (hM : j.off + j.m ≤ inp.MTotal) (hK : cfg.K % cfg.BK = 0) :
    applyJob cfg l1 s1 inp f1 j y = applyJob cfg l2 s2 inp f2 j y := by
  rw [applyJob_eq_storeManual, applyJob_eq_storeManual]
  funext r c
  unfold storeManual
  split
  case isTrue h => exact congrArg some (accum_ext l1 l2 f1 f2 hM hK (by omega) (by omega))
  case isFalse h => rfl

theorem applyJobFp8_ext (cfg : GemmCfg) (l1 s1 l2 s2 : Bool) (inp : Inputs)
    (f1 f2 : Fills) (xs ws : Nat → Int) (j : Job) (y : Out)
    (hM : j.off + j.m ≤ inp.MTotal) (hK : cfg.K % cfg.BK = 0) :
    applyJobFp8 cfg l1 s1 inp f1 xs ws j y =
      applyJobFp8 cfg l2 s2 inp f2 xs ws j y := by
  rw [applyJobFp8_eq_storeManual, applyJobFp8_eq_storeManual]
  funext r c
  unfold storeManual
  split
  case isTrue h =>
    refine congrArg some ?_
    have e := @accum_ext cfg inp l1 l2 f1 f2 j.off j.m (j.t % cdiv j.m cfg.BM)
      (j.t / cdiv j.m cfg.BM) (r - (j.off + j.t % cdiv j.m cfg.BM * cfg.BM))
      (c - j.t / cdiv j.m cfg.BM * cfg.BN) hM hK (by omega) (by omega)
    dsimp only
    rw [e]
  case isFalse h => rfl

theorem applyJobs_ext (cfg : GemmCfg) (l1 s1 l2 s2 : Bool) (inp : Inputs)
    (f1 f2 : Fills) (js : List Job) (y : Out)
    (hjs : ∀ j ∈ js, j.off + j.m ≤ inp.MTotal) (hK : cfg.K % cfg.BK = 0) :
    applyJobs cfg l1 s1 inp f1 js y = applyJobs cfg l2 s2 inp f2 js y := by
  revert hjs
  induction js generalizing y with
  | nil => intro _; rfl
  | cons j rest ih =>
    intro hjs
    simp only [applyJobs, List.foldl_cons]
    rw [applyJob_ext cfg l1 s1 l2 s2 inp f1 f2 j y (hjs j (by simp)) hK]
    exact ih _ fun j' hj' => hjs j' (by simp [hj'])

theorem applyJobsFp8_ext (cfg : GemmCfg) (l1 s1 l2 s2 : Bool) (inp : Inputs)
    (f1 f2 : Fills) (xs ws : Nat → Int) (js : List Job) (y : Out)
    (hjs : ∀ j ∈ js, j.off + j.m ≤ inp.MTotal) (hK : cfg.K % cfg.BK = 0) :
    applyJobsFp8 cfg l1 s1 inp f1 xs ws js y =
      applyJobsFp8 cfg l2 s2 inp f2 xs ws js y := by
  revert hjs
  induction js generalizing y with
  | nil => intro _; rfl
  | cons j rest ih =>
    intro hjs
    simp only [applyJobsFp8, List.foldl_cons]
    rw [applyJobFp8_ext cfg l1 s1 l2 s2 inp f1 f2 xs ws j y (hjs j (by simp)) hK]
    exact ih _ fun j' hj' => hjs j' (by simp [hj'])

theorem plainJobs_bound {cfg : GemmCfg} {pid nPid : Nat} {ms : List Nat}
    {off : Nat} {j : Job} (h : j ∈ plainJobs cfg pid nPid ms off) :
    j.off + j.m ≤ off + ms.sum := by
  unfold plainJobs at h
  rw [List.mem_flatMap] at h
  obtain ⟨om, hom, hj⟩ := h
  by_cases hm : 0 < om.2
  · rw [if_pos hm, List.mem_map] at hj
    obtain ⟨t, _, ht⟩ := hj
    have := groupOffsets_mem hom
    rw [← ht]
    exact this
  · rw [if_neg hm] at hj
    simp at hj

theorem fp8Go_mem {cfg : GemmCfg} {S : Nat} {oms : List (Nat × Nat)}
    {tidx iter : Nat} {j : Job} (h : j ∈ fp8Go cfg S oms tidx iter) :
    ∃ om ∈ oms, j.off = om.1 ∧ j.m = om.2 := by
  induction oms generalizing tidx iter with
  | nil => simp [fp8Go] at h
  | cons om rest ih =>
    unfold fp8Go at h
    by_cases hm : 0 < om.2
    · rw [if_pos hm] at h
      rw [List.mem_append] at h
      rcases h with h | h
      · rw [List.mem_map] at h
        obtain ⟨gi, _, hgi⟩ := h
        exact ⟨om, by simp, by rw [← hgi], by rw [← hgi]⟩
      · obtain ⟨om', hom', he⟩ := ih h
        exact ⟨om', by simp [hom'], he⟩
    · rw [if_neg hm] at h
      obtain ⟨om', hom', he⟩ := ih h
      exact ⟨om', by simp [hom'], he⟩

theorem fp8Jobs_bound {cfg : GemmCfg} {S : Nat} {ms : List Nat}
    {off tidx iter : Nat} {j : Job} (h : j ∈ fp8Jobs cfg S ms off tidx iter) :
    j.off + j.m ≤ off + ms.sum := by
  obtain ⟨om, hom, h1, h2⟩ := fp8Go_mem h
  rw [h1, h2]
  exact groupOffsets_mem hom

theorem kernel_grouped_gemm_ext (cfg : GemmCfg) (l1 s1 l2 s2 : Bool)
    (inp : Inputs) (f1 f2 : Fills) (ms : List Nat) (grid : Nat)
    (hsum : ms.sum ≤ inp.MTotal) (hK : cfg.K % cfg.BK = 0) :
    kernel_grouped_gemm cfg l1 s1 inp f1 ms grid =
      kernel_grouped_gemm cfg l2 s2 inp f2 ms grid := by
  unfold kernel_grouped_gemm
  apply List.foldl_ext
  intro y pid _
  exact applyJobs_ext cfg l1 s1 l2 s2 inp f1 f2 _ y
    (fun j hj => le_trans (by simpa using plainJobs_bound hj) hsum) hK

theorem kernel_grouped_gemm_fp8_rowwise_ext (cfg : GemmCfg)
    (l1 s1 l2 s2 : Bool) (inp : Inputs) (f1 f2 : Fills) (xs ws : Nat → Int)
    (ms : List Nat) (grid S : Nat)
    (hsum : ms.sum ≤ inp.MTotal) (hK : cfg.K % cfg.BK = 0) :
    kernel_grouped_gemm_fp8_rowwise cfg l1 s1 inp f1 xs ws ms grid S =
      kernel_grouped_gemm_fp8_rowwise cfg l2 s2 inp f2 xs ws ms grid S := by
  unfold kernel_grouped_gemm_fp8_rowwise
  apply List.foldl_ext
  intro y t0 _
  exact applyJobsFp8_ext cfg l1 s1 l2 s2 inp f1 f2 xs ws _ y
    (fun j hj => le_trans (by simpa using fp8Jobs_bound hj) hsum) hK

end MG

namespace MG

theorem applyJobs_cons (cfg : GemmCfg) (l s : Bool) (inp : Inputs)
    (f : Fills) (j : Job) (rest : List Job) (y : Out) :
    applyJobs cfg l s inp f (j :: rest) y =
      applyJobs cfg l s inp f rest (applyJob cfg l s inp f j y) := rfl

theorem applyJobsFp8_cons (cfg : GemmCfg) (l s : Bool) (inp : Inputs)
    (f : Fills) (xs ws : Nat → Int) (j : Job) (rest : List Job) (y : Out) :
    applyJobsFp8 cfg l s inp f xs ws (j :: rest) y =
      applyJobsFp8 cfg l s inp f xs ws rest (applyJobFp8 cfg l s inp f xs ws j y) := rfl

theorem applyJob_frame {cfg : GemmCfg} (l s : Bool) (inp : Inputs) (f : Fills)
    {j : Job} (y : Out) {r c : Nat} (h : ¬ jobCovers cfg j r c) :
    applyJob cfg l s inp f j y r c = y r c := by
  rw [applyJob_eq_storeManual]
  unfold storeManual
  exact if_neg h

theorem applyJobFp8_frame {cfg : GemmCfg} (l s : Bool) (inp : Inputs)
    (f : Fills) (xs ws : Nat → Int) {j : Job} (y : Out) {r c : Nat}
    (h : ¬ jobCovers cfg j r c) :
    applyJobFp8 cfg l s inp f xs ws j y r c = y r c := by
  rw [applyJobFp8_eq_storeManual]
  unfold storeManual
  exact if_neg h

theorem applyJobs_frame {cfg : GemmCfg} (l s : Bool) (inp : Inputs)
    (f : Fills) {js : List Job} (y : Out) {r c : Nat}
    (h : ∀ j ∈ js, ¬ jobCovers cfg j r c) :
    applyJobs cfg l s inp f js y r c = y r c := by
  revert h
  induction js generalizing y with
  | nil => intro _; rfl
  | cons j rest ih =>
    intro h
    rw [applyJobs_cons, ih _ fun j' hj' => h j' (by simp [hj'])]
    exact applyJob_frame l s inp f y (h j (by simp))

theorem applyJobsFp8_frame {cfg : GemmCfg} (l s : Bool) (inp : Inputs)
    (f : Fills) (xs ws : Nat → Int) {js : List Job} (y : Out) {r c : Nat}
    (h : ∀ j ∈ js, ¬ jobCovers cfg j r c) :
    applyJobsFp8 cfg l s inp f xs ws js y r c = y r c := by
  revert h
  induction js generalizing y with
  | nil => intro _; rfl
  | cons j rest ih =>
    intro h
    rw [applyJobsFp8_cons, ih _ fun j' hj' => h j' (by simp [hj'])]
    exact applyJobFp8_frame l s inp f xs ws y (h j (by simp))

theorem coveredPlain_false {cfg : GemmCfg} {ms : List Nat} {grid r c : Nat}
    (h : coveredPlain cfg ms grid r c = false) :
    ∀ pid ∈ List.range grid, ∀ j ∈ plainJobs cfg pid grid ms 0,
      ¬ jobCovers cfg j r c := by
  intro pid hpid j hj hcov
  have ht : coveredPlain cfg ms grid r c = true := by
    simp only [coveredPlain, List.any_eq_true, decide_eq_true_eq]
    exact ⟨pid, hpid, j, hj, hcov⟩
  rw [h] at ht
  exact Bool.false_ne_true ht

theorem coveredFp8_false {cfg : GemmCfg} {ms : List Nat} {grid S r c : Nat}
    (h : coveredFp8 cfg ms grid S r c = false) :
    ∀ t0 ∈ List.range grid, ∀ j ∈ fp8Jobs cfg S ms 0 t0 0,
      ¬ jobCovers cfg j r c := by
  intro t0 ht0 j hj hcov
  have ht : coveredFp8 cfg ms grid S r c = true := by
    simp only [coveredFp8, List.any_eq_true, decide_eq_true_eq]
    exact ⟨t0, ht0, j, hj, hcov⟩
  rw [h] at ht
  exact Bool.false_ne_true ht

theorem kernel_grouped_gemm_frame {cfg : GemmCfg} (l s : Bool) (inp : Inputs)
    (f : Fills) {ms : List Nat} {grid r c : Nat}
    (h : coveredPlain cfg ms grid r c = false) :
    kernel_grouped_gemm cfg l s inp f ms grid r c = none := by
  unfold kernel_grouped_gemm
  have hall := coveredPlain_false h
  suffices hgen : ∀ (pids : List Nat) (y : Out),
      (∀ pid ∈ pids, ∀ j ∈ plainJobs cfg pid grid ms 0, ¬ jobCovers cfg j r c) →
      (pids.foldl
        (fun y pid => applyJobs cfg l s inp f (plainJobs cfg pid grid ms 0) y)
        y) r c = y r c by
    exact hgen (List.range grid) emptyOut hall
  intro pids
  induction pids with
  | nil => intro y _; rfl
  | cons pid rest ih =>
    intro y hp
    simp only [List.foldl_cons]
    rw [ih _ fun p hp' => hp p (by simp [hp'])]
    exact applyJobs_frame l s inp f y (hp pid (by simp))

theorem kernel_grouped_gemm_fp8_frame {cfg : GemmCfg} (l s : Bool)
    (inp : Inputs) (f : Fills) (xs ws : Nat → Int) {ms : List Nat}
    {grid S r c : Nat} (h : coveredFp8 cfg ms grid S r c = false) :
    kernel_grouped_gemm_fp8_rowwise cfg l s inp f xs ws ms grid S r c = none := by
  unfold kernel_grouped_gemm_fp8_rowwise
  have hall := coveredFp8_false h
  suffices hgen : ∀ (t0s : List Nat) (y : Out),
      (∀ t0 ∈ t0s, ∀ j ∈ fp8Jobs cfg S ms 0 t0 0, ¬ jobCovers cfg j r c) →
      (t0s.foldl
        (fun y t0 =>
          applyJobsFp8 cfg l s inp f xs ws (fp8Jobs cfg S ms 0 t0 0) y)
        y) r c = y r c by
    exact hgen (List.range grid) emptyOut hall
  intro t0s
  induction t0s with
  | nil => intro y _; rfl
  | cons t0 rest ih =>
    intro y hp
    simp only [List.foldl_cons]
    rw [ih _ fun p hp' => hp p (by simp [hp'])]
    exact applyJobsFp8_frame l s inp f xs ws y (hp t0 (by simp))

theorem plainJobs_zero_group (cfg : GemmCfg) (pid nPid : Nat) (ms : List Nat)
    (off : Nat) :
    plainJobs cfg pid nPid (0 :: ms) off = plainJobs cfg pid nPid ms off := by
  simp [plainJobs, groupOffsets]

theorem fp8Jobs_zero_group (cfg : GemmCfg) (S : Nat) (ms : List Nat)
    (off tidx iter : Nat) :
    fp8Jobs cfg S (0 :: ms) off tidx iter = fp8Jobs cfg S ms off tidx iter := by
  simp [fp8Jobs, groupOffsets, fp8Go]

end MG

namespace MG

/-- C1: the claim states that the output entry at global row `r`, column `c`
equals `Σ_k input[r,k]·weight[group(r)·N + c, k]`, i.e. that each group's
rows are multiplied by that group's own `N`-row slice of the weight matrix.
The code computes neither load offset from the group index: with the
claim's layout (`G = 2`, `N = 1`, `K = 32`, weight row 0 all zeros and
weight row 1 all ones, both input rows all ones), the claimed value at
`(1, 0)` is `Σ_k 1·1 = 32`, but the kernel produces `0` because row 1
(group 1) is multiplied by weight row 0, the same shared block every group
reads. -/
theorem C1_group_weight_offset_bug :
    resultVal (grouped_gemm aC1) 1 0 = some 0 ∧
    (∑ k in Finset.range 32, xC1.v 1 k * wC1.v (1 * 1 + 0) k) = 32 := by
  constructor <;> decide

/-- C2: the claim states that, under the grid actually launched by the
host (`min(NUM_SMS, 4)` workers), every valid tile of every non-empty
group is computed exactly once by both kernels.  The fp8 kernel advances
each worker's cursor by the constexpr `NUM_SMS`, not by the launched grid
size: with `NUM_SMS = 8` and a single group of 320 rows (5 row tiles),
tile index 4 is on no worker's schedule, and the output rows of that tile
(256..319) are left unwritten (`none`). -/
theorem C2_fp8_grid_stride_bug :
    256 < aC2.x.rows ∧
    ((List.range 4).all fun t0 =>
      ((fp8Jobs ⟨1, 32, 64, 64, 32⟩ 8 [320] 0 t0 0).map Job.t).all
        (· != 4)) = true ∧
    resultVal (grouped_gemm aC2) 256 0 = none := by
  refine ⟨by decide, by decide, by decide⟩

/-- C3: the claim states that the quantized output at `(r, c)` is
`(Σ_k input[r,k]·weight[group(r)·N + c, k]) · input_scale[r] ·
weight_scale[group(r)·N + c]`.  The kernel reads both the weight block and
the weight scale without any group offset: with `G = 2`, `N = 1`, all
data 1, input scales 1 and weight scales `[5, 7]`, the claimed value at
`(1, 0)` is `32·1·7 = 224`, but the kernel produces `32·1·5 = 160`
(weight scale at offset `c = 0` instead of `group(1)·N + c = 1`). -/
theorem C3_weight_scale_offset_bug :
    resultVal (grouped_gemm aC3) 1 0 = some 160 ∧
    ((∑ k in Finset.range 32, xC3.v 1 k * wC3.v (1 * 1 + 0) k) *
      xScaleC3 1 * wScaleC3 (1 * 1 + 0)) = 224 := by
  constructor <;> decide

/-- C4: on the same inputs, the bulk-descriptor (TMA) load/store path and
the manual masked load/store path produce identical output matrices, for
both the plain and the quantized kernel, whenever the host-checked
precondition `Σ m_sizes = M_total` and the kernels' static assertion
`K % BLOCK_SIZE_K = 0` hold — and this for every content of the
unspecified masked-load lanes. -/
theorem C4_tma_manual_equiv (cfg : GemmCfg) (inp : Inputs) (fills : Fills)
    (xs ws : Nat → Int) (ms : List Nat) (grid S : Nat)
    (hsum : ms.sum = inp.MTotal) (hK : cfg.K % cfg.BK = 0) :
    kernel_grouped_gemm cfg true true inp fills ms grid =
      kernel_grouped_gemm cfg false false inp fills ms grid ∧
    kernel_grouped_gemm_fp8_rowwise cfg true true inp fills xs ws ms grid S =
      kernel_grouped_gemm_fp8_rowwise cfg false false inp fills xs ws ms grid
        S :=
  ⟨kernel_grouped_gemm_ext cfg true true false false inp fills fills ms grid
      (le_of_eq hsum) hK,
   kernel_grouped_gemm_fp8_rowwise_ext cfg true true false false inp fills
      fills xs ws ms grid S (le_of_eq hsum) hK⟩

/-- C4 witness: the equivalence evaluated on a concrete one-element
problem. -/
theorem C4_tma_manual_equiv_witness :
    ([1] : List Nat).sum = inpT.MTotal ∧
    kernel_grouped_gemm cfgT true true inpT fillsT [1] 1 0 0 =
      kernel_grouped_gemm cfgT false false inpT fillsT [1] 1 0 0 ∧
    kernel_grouped_gemm_fp8_rowwise cfgT true true inpT fillsT scOne scOne
        [1] 1 1 0 0 =
      kernel_grouped_gemm_fp8_rowwise cfgT false false inpT fillsT scOne
        scOne [1] 1 1 0 0 :=
  ⟨by decide,
   congrFun (congrFun
     ((C4_tma_manual_equiv cfgT inpT fillsT scOne scOne [1] 1 1 (by decide)
        (by decide)).1) 0) 0,
   congrFun (congrFun
     ((C4_tma_manual_equiv cfgT inpT fillsT scOne scOne [1] 1 1 (by decide)
        (by decide)).2) 0) 0⟩

/-- C5 counterexample: the claim states that a fault while configuring a
bulk-transfer memory descriptor aborts the whole invocation and that the
entry point never continues on to launch the compute kernel.  On the
concrete valid invocation `aC5`, whose descriptor fill raises, the entry
point catches the exception (printing it) and still launches the plain
kernel, returning a normal result instead of an error. -/
theorem C5_desc_fault_counter :
    aC5.tmaFillFails = true ∧
    okKernel (grouped_gemm aC5) = some KernelKind.plain ∧
    okPrinted (grouped_gemm aC5) = some true := by
  refine ⟨rfl, by decide, by decide⟩

/-- C5 amended: a failure raised while filling the TMA descriptors is
caught by the entry point's try/except, which prints it and continues: a
valid invocation completes and launches its compute kernel regardless of
whether the descriptor fill failed, and the printed-error flag records
exactly that failure.  (Failures of the boundary assertions, outside that
try block, still abort before any launch.) -/
theorem C5_desc_fault_swallowed (a : HostArgs)
    (hT : a.hasTMA = true) (hxc : a.x.contig = true)
    (hwc : a.w.contig = true) (hmc : a.msContig = true)
    (hk : a.w.cols = a.x.cols) (hsc1 : a.xscaleContig = true)
    (hsc2 : a.wscaleContig = true) (hK32 : a.x.cols % 32 = 0)
    (hs : a.msizes.sum = a.x.rows)
    (hcons : a.xscale.isSome = a.wscale.isSome) :
    okKernel (grouped_gemm a) =
      some (if a.xscale.isSome = true then KernelKind.fp8
            else KernelKind.plain) ∧
    okPrinted (grouped_gemm a) = some a.tmaFillFails := by
  cases hx : a.xscale with
  | none =>
    cases hw : a.wscale with
    | none =>
      simp [grouped_gemm, okKernel, okPrinted, hT, hxc, hwc, hmc, hk, hK32,
        hs, hx, hw, Except.toOption]
    | some ws => rw [hx, hw] at hcons; simp at hcons
  | some xs =>
    cases hw : a.wscale with
    | none => rw [hx, hw] at hcons; simp at hcons
    | some ws =>
      simp [grouped_gemm, okKernel, okPrinted, hT, hxc, hwc, hmc, hk, hsc1,
        hsc2, hK32, hs, hx, hw, Except.toOption]

/-- C5 amended witness: the concrete failing-descriptor invocation still
launches the plain kernel and records the printed error. -/
theorem C5_desc_fault_swallowed_witness :
    okKernel (grouped_gemm aC5) =
      some (if aC5.xscale.isSome = true then KernelKind.fp8
            else KernelKind.plain) ∧
    okPrinted (grouped_gemm aC5) = some aC5.tmaFillFails :=
  C5_desc_fault_swallowed aC5 rfl rfl rfl rfl rfl rfl rfl (by decide)
    (by decide) rfl

/-- C6 counterexample: the claim states that every masked-out element of
the manually loaded input/weight blocks reads as zero.  The two data loads
pass no `other` operand to `tl.load`, so masked-out lanes are unspecified:
in a configuration with `BLOCK_SIZE_M = 2` and a group of one row, lane
`i = 1` of the input block is masked out (`0·2 + 1 < 1` fails) and the
load yields the unspecified lane content — here 1, not 0. -/
theorem C6_masked_load_counter :
    ¬ (0 * cfg6.BM + 1 < 1) ∧
    loadA cfg6 false inp6 fills1 0 1 0 1 0 = fills1.fillA 1 0 ∧
    fills1.fillA 1 0 ≠ 0 := by
  refine ⟨by decide, by decide, by decide⟩

/-- C6 amended: masked-out lanes of the manual input/weight block loads
take unspecified values (no `other` operand is passed), but no stored
output element depends on them: under the host-checked precondition
`Σ m_sizes = M_total` and the static assertion `K % BLOCK_SIZE_K = 0`,
both kernels' manual-load outputs are identical for any two choices of
the unspecified lane contents, because every lane that reaches a stored
cell is in-bounds and the store mask suppresses the rest. -/
theorem C6_masked_fill_independent (cfg : GemmCfg) (inp : Inputs)
    (f1 f2 : Fills) (xs ws : Nat → Int) (ms : List Nat) (grid S : Nat)
    (s : Bool) (hsum : ms.sum = inp.MTotal) (hK : cfg.K % cfg.BK = 0) :
    kernel_grouped_gemm cfg false s inp f1 ms grid =
      kernel_grouped_gemm cfg false s inp f2 ms grid ∧
    kernel_grouped_gemm_fp8_rowwise cfg false s inp f1 xs ws ms grid S =
      kernel_grouped_gemm_fp8_rowwise cfg false s inp f2 xs ws ms grid S :=
  ⟨kernel_grouped_gemm_ext cfg false s false s inp f1 f2 ms grid
      (le_of_eq hsum) hK,
   kernel_grouped_gemm_fp8_rowwise_ext cfg false s false s inp f1 f2 xs ws
      ms grid S (le_of_eq hsum) hK⟩

/-- C6 amended witness: fill-independence evaluated on a concrete
one-element problem with two different fills. -/
theorem C6_masked_fill_independent_witness :
    ([1] : List Nat).sum = inpT.MTotal ∧
    kernel_grouped_gemm cfgT false false inpT fillsT [1] 1 0 0 =
      kernel_grouped_gemm cfgT false false inpT fills0 [1] 1 0 0 ∧
    kernel_grouped_gemm_fp8_rowwise cfgT false false inpT fillsT scOne scOne
        [1] 1 1 0 0 =
      kernel_grouped_gemm_fp8_rowwise cfgT false false inpT fills0 scOne
        scOne [1] 1 1 0 0 :=
  ⟨by decide,
   congrFun (congrFun
     ((C6_masked_fill_independent cfgT inpT fillsT fills0 scOne scOne [1] 1
        1 false (by decide) (by decide)).1) 0) 0,
   congrFun (congrFun
     ((C6_masked_fill_independent cfgT inpT fillsT fills0 scOne scOne [1] 1
        1 false (by decide) (by decide)).2) 0) 0⟩

/-- C7: the running group scan gives group `g` the start row
`Σ_{i<g} m_sizes[i]` (equivalently, group `g+1` starts at
`Σ_{i≤g} m_sizes[i]`), and a zero-sized group contributes no jobs in
either kernel, shifts no later group's offset, and leaves the fp8
kernel's cumulative tile counter `iterated_tiles` (and the worker cursor)
untouched — inserting a zero-sized group in front of the remaining groups
leaves both kernels' schedules literally unchanged. -/
theorem C7_group_offsets_spec (cfg : GemmCfg) (S : Nat) (ms : List Nat)
    (g off tidx iter pid nPid : Nat) (hg : g < ms.length) :
    (groupOffsets ms 0).getD g (0, 0) = ((ms.take g).sum, ms.getD g 0) ∧
    plainJobs cfg pid nPid (0 :: ms) off = plainJobs cfg pid nPid ms off ∧
    fp8Jobs cfg S (0 :: ms) off tidx iter = fp8Jobs cfg S ms off tidx iter := by
  refine ⟨?_, plainJobs_zero_group cfg pid nPid ms off,
    fp8Jobs_zero_group cfg S ms off tidx iter⟩
  rw [groupOffsets_getD 0 hg]
  simp

/-- C7 witness: the scan and the zero-group equations evaluated on the
group-size list `[2, 0, 3]` at `g = 2`. -/
theorem C7_group_offsets_spec_witness :
    (groupOffsets [2, 0, 3] 0).getD 2 (0, 0) =
      (([2, 0, 3].take 2).sum, [2, 0, 3].getD 2 0) ∧
    plainJobs cfgT 0 1 (0 :: [2, 0, 3]) 5 = plainJobs cfgT 0 1 [2, 0, 3] 5 ∧
    fp8Jobs cfgT 1 (0 :: [2, 0, 3]) 5 0 0 = fp8Jobs cfgT 1 [2, 0, 3] 5 0 0 :=
  C7_group_offsets_spec cfgT 1 [2, 0, 3] 2 5 0 0 0 1 (by decide)

/-- C8: a tile's store — manual-masked or TMA-clipped — never changes any
cell outside the group rectangle `[M_start, M_start + m_size) × [0, N)`
(in particular rows of other groups are untouched), never changes any
cell outside the tile's own `BM × BN` window, and writes exactly the
in-bounds cells of that window, with the mask being the conjunction of
row-in-bounds and column-in-bounds. -/
theorem C8_store_bounds (BM BN Nd Mstart msize tm tn : Nat)
    (val : Nat → Nat → Int) (y : Out) (r c : Nat) :
    (¬ (Mstart ≤ r ∧ r < Mstart + msize ∧ c < Nd) →
      storeManual BM BN Nd Mstart msize tm tn val y r c = y r c ∧
      storeTMA BM BN Nd Mstart msize tm tn val y r c = y r c) ∧
    (¬ (Mstart + tm * BM ≤ r ∧ r < Mstart + tm * BM + BM ∧
        tn * BN ≤ c ∧ c < tn * BN + BN) →
      storeManual BM BN Nd Mstart msize tm tn val y r c = y r c ∧
      storeTMA BM BN Nd Mstart msize tm tn val y r c = y r c) ∧
    ((Mstart + tm * BM ≤ r ∧ r < Mstart + tm * BM + BM ∧
      r < Mstart + msize ∧ tn * BN ≤ c ∧ c < tn * BN + BN ∧ c < Nd) →
      storeManual BM BN Nd Mstart msize tm tn val y r c =
        some (val (r - (Mstart + tm * BM)) (c - tn * BN)) ∧
      storeTMA BM BN Nd Mstart msize tm tn val y r c =
        some (val (r - (Mstart + tm * BM)) (c - tn * BN))) := by
  rw [storeTMA_eq_storeManual]
  unfold storeManual
  refine ⟨fun h => ⟨if_neg (by omega), if_neg (by omega)⟩,
    fun h => ⟨if_neg (by omega), if_neg (by omega)⟩,
    fun h => ⟨if_pos (by omega), if_pos (by omega)⟩⟩

/-- C8 witness: a partially out-of-bounds tile (`m_size = 3` not a
multiple of `BM = 2`, tile row index 1) writes its in-bounds cell and
leaves the first out-of-group row unchanged. -/
theorem C8_store_bounds_witness :
    storeManual 2 2 3 4 3 1 0 valW emptyOut 6 1 =
      some (valW (6 - (4 + 1 * 2)) (1 - 0 * 2)) ∧
    storeManual 2 2 3 4 3 1 0 valW emptyOut 7 1 = emptyOut 7 1 :=
  ⟨((C8_store_bounds 2 2 3 4 3 1 0 valW emptyOut 6 1).2.2 (by decide)).1,
   ((C8_store_bounds 2 2 3 4 3 1 0 valW emptyOut 7 1).1 (by decide)).1⟩

/-- C9: with the earlier boundary checks satisfied, the host entry point
fails before any kernel launch when the group sizes do not sum to the
input's row count, and when exactly one of the two scale vectors is
provided (either way round); when both are provided it dispatches the
quantized kernel and when neither is provided it dispatches the plain
kernel. -/
theorem C9_boundary_asserts (a : HostArgs) (xs ws : Nat → Int)
    (hT : a.hasTMA = true) (hxc : a.x.contig = true)
    (hwc : a.w.contig = true) (hmc : a.msContig = true)
    (hk : a.w.cols = a.x.cols) (hsc1 : a.xscaleContig = true)
    (hsc2 : a.wscaleContig = true) (hK32 : a.x.cols % 32 = 0) :
    (a.msizes.sum ≠ a.x.rows →
      grouped_gemm a = Except.error HostErr.sumMismatch) ∧
    (a.msizes.sum = a.x.rows → a.xscale = some xs → a.wscale = none →
      grouped_gemm a = Except.error HostErr.xscaleNotNone) ∧
    (a.msizes.sum = a.x.rows → a.xscale = none → a.wscale = some ws →
      grouped_gemm a = Except.error HostErr.wscaleNotNone) ∧
    (a.msizes.sum = a.x.rows → a.xscale = some xs → a.wscale = some ws →
      okKernel (grouped_gemm a) = some KernelKind.fp8) ∧
    (a.msizes.sum = a.x.rows → a.xscale = none → a.wscale = none →
      okKernel (grouped_gemm a) = some KernelKind.plain) := by
  refine ⟨fun hs => ?_, fun hs hx hw => ?_, fun hs hx hw => ?_,
    fun hs hx hw => ?_, fun hs hx hw => ?_⟩
  · simp [grouped_gemm, hT, hxc, hwc, hmc, hk, hs]
  · simp [grouped_gemm, hT, hxc, hwc, hmc, hk, hs, hx, hw]
  · simp [grouped_gemm, hT, hxc, hwc, hmc, hk, hs, hx, hw]
  · simp [grouped_gemm, okKernel, hT, hxc, hwc, hmc, hk, hsc1, hsc2, hK32,
      hs, hx, hw, Except.toOption]
  · simp [grouped_gemm, okKernel, hT, hxc, hwc, hmc, hk, hK32, hs, hx, hw,
      Except.toOption]

/-- C9 witness: providing only the input scale aborts with the scale
assertion, and providing both scales dispatches the quantized kernel. -/
theorem C9_boundary_asserts_witness :
    grouped_gemm aC9a = Except.error HostErr.xscaleNotNone ∧
    okKernel (grouped_gemm aC9b) = some KernelKind.fp8 :=
  ⟨(C9_boundary_asserts aC9a scOne scOne rfl rfl rfl rfl rfl rfl rfl
      (by decide)).2.1 (by decide) rfl rfl,
   (C9_boundary_asserts aC9b scOne scOne rfl rfl rfl rfl rfl rfl rfl
      (by decide)).2.2.2.1 (by decide) rfl rfl⟩

/-- C10: a completed call returns a tensor of shape
`(M_total, w.shape[0])` and dtype `bfloat16` whatever the input dtypes,
and — the buffer being created by `torch.empty` — every cell not covered
by one of the launched kernel's tile stores still holds its uninitialized
(`none`) contents. -/
theorem C10_output_alloc (a : HostArgs) (rr cc : Nat)
    (hT : a.hasTMA = true) (hxc : a.x.contig = true)
    (hwc : a.w.contig = true) (hmc : a.msContig = true)
    (hk : a.w.cols = a.x.cols) (hsc1 : a.xscaleContig = true)
    (hsc2 : a.wscaleContig = true) (hK32 : a.x.cols % 32 = 0)
    (hs : a.msizes.sum = a.x.rows)
    (hcons : a.xscale.isSome = a.wscale.isSome)
    (hcov : hostCovered a rr cc = false) :
    okRows (grouped_gemm a) = some a.x.rows ∧
    okCols (grouped_gemm a) = some a.w.rows ∧
    okDty (grouped_gemm a) = some DType.bf16 ∧
    resultVal (grouped_gemm a) rr cc = none := by
  cases hx : a.xscale with
  | none =>
    cases hw : a.wscale with
    | none =>
      simp only [hostCovered, hx, hw] at hcov
      simp [grouped_gemm, okRows, okCols, okDty, resultVal, hT, hxc, hwc,
        hmc, hk, hK32, hs, hx, hw, Except.toOption]
      exact kernel_grouped_gemm_frame true true ⟨a.x.rows, a.x.v, a.w.v⟩
        a.fills hcov
    | some ws => rw [hx, hw] at hcons; simp at hcons
  | some xs =>
    cases hw : a.wscale with
    | none => rw [hx, hw] at hcons; simp at hcons
    | some ws =>
      simp only [hostCovered, hx, hw] at hcov
      simp [grouped_gemm, okRows, okCols, okDty, resultVal, hT, hxc, hwc,
        hmc, hk, hsc1, hsc2, hK32, hs, hx, hw, Except.toOption]
      exact kernel_grouped_gemm_fp8_frame true true ⟨a.x.rows, a.x.v, a.w.v⟩
        a.fills xs ws hcov

/-- C10 witness: a concrete valid call with 8-bit floating-point inputs
returns a `(1, 1)` bfloat16 tensor whose out-of-coverage cell `(1, 0)` is
uninitialized. -/
theorem C10_output_alloc_witness :
    okRows (grouped_gemm aC10) = some aC10.x.rows ∧
    okCols (grouped_gemm aC10) = some aC10.w.rows ∧
    okDty (grouped_gemm aC10) = some DType.bf16 ∧
    resultVal (grouped_gemm aC10) 1 0 = none :=
  C10_output_alloc aC10 1 0 rfl rfl rfl rfl rfl rfl rfl (by decide)
    (by decide) rfl (by decide)

end MG
